import Mathlib

/-!
# Verification of the restaurant order-validation and atomic-commit engine

Shallow embedding of the order engine of `exam2-restaurant`:

* data model: `init_db.sql` (tables `ingredients`, `sizes`, `basedishes`,
  `ingredient_dependencies`, `ingredient_incompatibilities`, `orders`,
  `order_ingredients`);
* catalog reads: `dao-ingredients.js`, `dao-sizes.js`, `dao-basedishes.js`;
* the `POST /api/orders` handler validation pipeline: `index.js`;
* the transactional writes `createOrder` / `deleteOrder`: `dao-orders.js`.

Prices are SQLite `REAL` values; the engine never performs arithmetic on
them (the client-supplied `total` is stored verbatim), so they are embedded
as `Rat`, which is exact for the decimal values involved.

SQL semantics used by the embedding:

* `BEGIN TRANSACTION` / `ROLLBACK`: every rejecting branch of the DAO runs
  `ROLLBACK` before rejecting, so a rejecting call is modelled as returning
  the *original* database state together with the error;
* `INSERT INTO order_ingredients` fails exactly on a violation of the
  `(order_id, ingredient_id)` primary key (foreign keys are not enforced:
  `node-sqlite3` leaves `PRAGMA foreign_keys` off);
* `UPDATE ingredients SET availability = availability - 1 WHERE id = ? AND
  availability IS NOT NULL AND availability > 0` silently affects zero rows
  when the guard fails; it is not an error;
* `AUTOINCREMENT` order ids are modelled by a `nextOrderId` counter.

External storage failures (disk errors and the like) are modelled by a
failure-injection record `FailSpec`; `noFail` is the run in which only the
intrinsic failures above can occur.
-/

deriving instance DecidableEq for Except

namespace Restaurant

/-- A row of the `ingredients` table: `availability` is `NULL` (= unlimited)
or an integer. -/
structure Ingredient where
  id : Nat
  name : String
  price : Rat
  availability : Option Int
deriving Repr, DecidableEq

/-- A row of the `sizes` table. -/
structure Size where
  id : Nat
  name : String
  price : Rat
  maxIngredients : Nat
deriving Repr, DecidableEq

/-- A row of the `basedishes` table. -/
structure Dish where
  id : Nat
  name : String
deriving Repr, DecidableEq

/-- The catalog tables read by the engine.  `dependencies` holds
`(ingredient_id, depends_on_id)` rows, `incompatibilities` holds
`(ingredient1_id, ingredient2_id)` rows (stored directed, as in source). -/
structure Catalog where
  dishes : List Dish
  sizes : List Size
  ingredients : List Ingredient
  dependencies : List (Nat × Nat)
  incompatibilities : List (Nat × Nat)
deriving Repr, DecidableEq

/-- Embeds `dao-basedishes.js` `getDishById`: `SELECT id, name FROM basedishes WHERE id = ?`. -/
def getDishById (c : Catalog) (id : Nat) : Option Dish :=
  c.dishes.find? (fun d => d.id == id)

/-- Embeds `dao-sizes.js` `getSizeById`: `SELECT * FROM sizes WHERE id = ?`. -/
def getSizeById (c : Catalog) (id : Nat) : Option Size :=
  c.sizes.find? (fun s => s.id == id)

/-- Embeds `dao-ingredients.js` `getIngredientsByIds`:
`SELECT * FROM ingredients WHERE id IN (...)`, resolving to `[]` on an
empty id list. -/
def getIngredientsByIds (c : Catalog) (ids : List Nat) : List Ingredient :=
  if ids.isEmpty then [] else c.ingredients.filter (fun i => ids.contains i.id)

/-- Embeds `dao-ingredients.js` `getIngredientDependencies`:
`SELECT depends_on_id FROM ingredient_dependencies WHERE ingredient_id = ?`. -/
def getIngredientDependencies (c : Catalog) (id : Nat) : List Nat :=
  (c.dependencies.filter (fun p => p.1 == id)).map (fun p => p.2)

/-- Embeds `dao-ingredients.js` `getIngredientIncompatibilities`:
`SELECT ingredient2_id FROM ingredient_incompatibilities WHERE ingredient1_id = ?`
— only the `ingredient1_id → ingredient2_id` direction is queried. -/
def getIngredientIncompatibilities (c : Catalog) (id : Nat) : List Nat :=
  (c.incompatibilities.filter (fun p => p.1 == id)).map (fun p => p.2)

/-- The body of `POST /api/orders`: the handler reads only the `id` fields
of `req.body.ingredients`, plus `dishId`, `sizeId` and `total`. -/
structure OrderReq where
  dishId : Nat
  sizeId : Nat
  ingredients : List Nat
  total : Rat
deriving Repr, DecidableEq

/-- The validation violations produced by the `POST /api/orders` handler,
as a closed enumeration; `Violation.message` renders the exact source
error strings. -/
inductive Violation where
  | unknownDish
  | unknownSize
  | unknownIngredient (id : Nat)
  | outOfStock (name : String)
  | sizeLimitExceeded (sizeName : String) (limit : Nat)
  | missingDependency (ingName reqName : String)
  | incompatible (ingName otherName : String)
deriving Repr, DecidableEq

/-- The literal error strings of `index.js`. -/
def Violation.message : Violation → String
  | .unknownDish => "Invalid dish selected"
  | .unknownSize => "Invalid size selected"
  | .unknownIngredient id => "Ingredient with id " ++ toString id ++ " not found"
  | .outOfStock name => name ++ " is not available"
  | .sizeLimitExceeded sizeName limit =>
      sizeName ++ " dishes can only have up to " ++ toString limit ++ " ingredients"
  | .missingDependency ingName reqName => ingName ++ " requires " ++ reqName
  | .incompatible ingName otherName => ingName ++ " is incompatible with " ++ otherName

/-- Source `index.js` 150–158: the existence-and-availability loop over
`order.ingredients` in input order; for each candidate, first
`currentIngredients.find` (existence), then
`availability !== null && availability === 0` (out of stock). -/
def checkExistAvail (current : List Ingredient) : List Nat → Option Violation
  | [] => none
  | oid :: rest =>
    match current.find? (fun i => i.id == oid) with
    | none => some (.unknownIngredient oid)
    | some dbIng =>
      if dbIng.availability == some 0 then some (.outOfStock dbIng.name)
      else checkExistAvail current rest

/-- Source `index.js` 168–169, 195–196: candidate name resolution — the name from
`currentIngredients` when found, otherwise the literal fallback string. -/
def candName (current : List Ingredient) (oid : Nat) : String :=
  match current.find? (fun i => i.id == oid) with
  | some i => i.name
  | none => "ingredient ID " ++ toString oid

/-- Source `index.js` 178–186: name of a missing required ingredient — from
`currentIngredients` when present, else fetched by `getIngredientsByIds`,
else the literal fallback string. -/
def reqIngName (cat : Catalog) (current : List Ingredient) (depId : Nat) : String :=
  match current.find? (fun i => i.id == depId) with
  | some i => i.name
  | none =>
    match getIngredientsByIds cat [depId] with
    | [] => "ingredient ID " ++ toString depId
    | i :: _ => i.name

/-- Source `index.js` 175–189: first dependency of one candidate that is absent
from the submitted id list. -/
def findMissingDep (ids : List Nat) : List Nat → Option Nat
  | [] => none
  | d :: rest => if ids.contains d then findMissingDep ids rest else some d

/-- Source `index.js` 166–190: the dependency loop over candidates in input order. -/
def checkDeps (cat : Catalog) (current : List Ingredient) (ids : List Nat) :
    List Nat → Option Violation
  | [] => none
  | oid :: rest =>
    match findMissingDep ids (getIngredientDependencies cat oid) with
    | some d => some (.missingDependency (candName current oid) (reqIngName cat current d))
    | none => checkDeps cat current ids rest

/-- Source `index.js` 202–209: first incompatible counterpart of one candidate
that is present in the submitted id list. -/
def findPresentIncomp (ids : List Nat) : List Nat → Option Nat
  | [] => none
  | c :: rest => if ids.contains c then some c else findPresentIncomp ids rest

/-- Source `index.js` 204–206: name of an incompatible counterpart — only
`currentIngredients` is consulted, else the literal fallback string. -/
def incompIngName (current : List Ingredient) (cid : Nat) : String :=
  match current.find? (fun i => i.id == cid) with
  | some i => i.name
  | none => "ingredient ID " ++ toString cid

/-- Source `index.js` 193–210: the incompatibility loop over candidates in input
order. -/
def checkIncompats (cat : Catalog) (current : List Ingredient) (ids : List Nat) :
    List Nat → Option Violation
  | [] => none
  | oid :: rest =>
    match findPresentIncomp ids (getIngredientIncompatibilities cat oid) with
    | some c => some (.incompatible (candName current oid) (incompIngName current c))
    | none => checkIncompats cat current ids rest

/-- Source `index.js` 144–211: the ingredient validation block, skipped entirely
for an empty candidate list; otherwise existence/availability loop, then
size cap (`order.ingredients.length > sizeInfo.max_ingredients`), then
dependencies, then incompatibilities. -/
def validateIngredients (cat : Catalog) (sizeInfo : Size) (ids : List Nat) :
    Option Violation :=
  if ids.isEmpty then none
  else
    let current := getIngredientsByIds cat ids
    match checkExistAvail current ids with
    | some v => some v
    | none =>
      if ids.length > sizeInfo.maxIngredients then
        some (.sizeLimitExceeded sizeInfo.name sizeInfo.maxIngredients)
      else
        match checkDeps cat current ids ids with
        | some v => some v
        | none => checkIncompats cat current ids ids

/-- Source `index.js` 131–211: the full initial validation of `POST /api/orders` —
dish existence, size existence, then the ingredient block. -/
def validateOrder (cat : Catalog) (o : OrderReq) : Option Violation :=
  match getDishById cat o.dishId with
  | none => some .unknownDish
  | some _ =>
    match getSizeById cat o.sizeId with
    | none => some .unknownSize
    | some sizeInfo => validateIngredients cat sizeInfo o.ingredients

/-- Source `index.js` 213–228: the "final availability check just before order
creation" — a fresh `getIngredientsByIds` read followed by the same
existence-and-availability loop, and nothing else. -/
def finalCheck (cat : Catalog) (ids : List Nat) : Option Violation :=
  if ids.isEmpty then none
  else checkExistAvail (getIngredientsByIds cat ids) ids

/-- A row of the `orders` table. -/
structure OrderRow where
  id : Nat
  userId : Nat
  dishId : Nat
  sizeId : Nat
  total : Rat
deriving Repr, DecidableEq

/-- The mutable database state seen by the order engine: the catalog
(whose `ingredients.availability` column the engine mutates), the `orders`
table, the `order_ingredients` join table, and the `AUTOINCREMENT` counter
of `orders`. -/
structure DB where
  catalog : Catalog
  orders : List OrderRow
  orderIngredients : List (Nat × Nat)
  nextOrderId : Nat
deriving Repr, DecidableEq

/-- Effect of `UPDATE ingredients SET availability = availability - 1 WHERE
id = ? AND availability IS NOT NULL AND availability > 0` on one row. -/
def decRow (iid : Nat) (i : Ingredient) : Ingredient :=
  if i.id == iid then
    match i.availability with
    | some a => if 0 < a then { i with availability := some (a - 1) } else i
    | none => i
  else i

/-- Source `dao-orders.js` 106: `UPDATE ingredients SET availability = availability - 1
WHERE id = ? AND availability IS NOT NULL AND availability > 0`. -/
def decrementAvail (c : Catalog) (iid : Nat) : Catalog :=
  { c with ingredients := c.ingredients.map (decRow iid) }

/-- Effect of `UPDATE ingredients SET availability = availability + 1 WHERE
id = ? AND availability IS NOT NULL` on one row. -/
def incRow (iid : Nat) (i : Ingredient) : Ingredient :=
  if i.id == iid then
    match i.availability with
    | some a => { i with availability := some (a + 1) }
    | none => i
  else i

/-- Source `dao-orders.js` 169: `UPDATE ingredients SET availability = availability + 1
WHERE id = ? AND availability IS NOT NULL`. -/
def incrementAvail (c : Catalog) (iid : Nat) : Catalog :=
  { c with ingredients := c.ingredients.map (incRow iid) }

/-- The rejection reasons of the DAO promise (`reject({ error: ... })`
branches of `dao-orders.js`). -/
inductive DaoError where
  | failedBeginTransaction
  | failedCreateOrder
  | failedAddIngredients
  | failedUpdateAvailability
  | failedCommit
  | failedGetOrderIngredients
  | failedDeleteOrderIngredients
  | failedDeleteOrder
  | failedCommitDeletion
deriving Repr, DecidableEq

/-- Injected external storage failures for `createOrder`, indexed by the
position in the ingredient loop where relevant.  Intrinsic failures (the
`order_ingredients` primary-key violation) occur regardless. -/
structure FailSpec where
  beginFails : Bool
  insertOrderFails : Bool
  addIngredientFails : Nat → Bool
  updateAvailabilityFails : Nat → Bool
  commitFails : Bool

/-- The run with no injected storage failure. -/
def noFail : FailSpec :=
  ⟨false, false, fun _ => false, fun _ => false, false⟩

/-- Embeds `INSERT INTO order_ingredients (order_id, ingredient_id) VALUES (?, ?)`:
fails exactly on a `(order_id, ingredient_id)` primary-key violation. -/
def insertOrderIngredient (db : DB) (oid iid : Nat) : Option DB :=
  if db.orderIngredients.contains (oid, iid) then none
  else some { db with orderIngredients := db.orderIngredients ++ [(oid, iid)] }

/-- Source `dao-orders.js` 84–118 `processNextIngredient`: for each ingredient in
order, insert the association row, then run the conditional availability
decrement, then recurse; commit at the end of the list.  Every rejecting
branch runs `ROLLBACK`, so it returns the pre-transaction state `db0`. -/
def processIngredients (f : FailSpec) (db0 : DB) (oid : Nat) :
    DB → Nat → List Nat → DB × Except DaoError Nat
  | db, _, [] =>
      if f.commitFails then (db0, .error .failedCommit) else (db, .ok oid)
  | db, idx, iid :: rest =>
      if f.addIngredientFails idx then (db0, .error .failedAddIngredients)
      else
        match insertOrderIngredient db oid iid with
        | none => (db0, .error .failedAddIngredients)
        | some db1 =>
          if f.updateAvailabilityFails idx then (db0, .error .failedUpdateAvailability)
          else
            processIngredients f db0 oid
              { db1 with catalog := decrementAvail db1.catalog iid } (idx + 1) rest

/-- Source `dao-orders.js` 48–122 `createOrder`: begin, insert the order row
(`INSERT INTO orders (user_id, dish_id, size_id, total)`), then either
commit directly (empty ingredient list) or run the ingredient loop.  A
rejecting branch rolls back to the input state. -/
def createOrder (f : FailSpec) (db : DB) (userId : Nat) (o : OrderReq) :
    DB × Except DaoError Nat :=
  if f.beginFails then (db, .error .failedBeginTransaction)
  else if f.insertOrderFails then (db, .error .failedCreateOrder)
  else
    let oid := db.nextOrderId
    let db1 : DB :=
      { db with
        orders := db.orders ++ [⟨oid, userId, o.dishId, o.sizeId, o.total⟩],
        nextOrderId := oid + 1 }
    if o.ingredients.isEmpty then
      if f.commitFails then (db, .error .failedCommit) else (db1, .ok oid)
    else processIngredients f db oid db1 0 o.ingredients

/-- Source `dao-orders.js` 125–183 `deleteOrder`: begin, read the association rows
of `orderId` (not scoped to the user), increment availability for each
tracked ingredient found, delete the association rows of `orderId`, delete
the order row scoped to `id = ? AND user_id = ?`, commit, and resolve with
`this.changes` of that last delete. -/
def deleteOrder (db : DB) (userId orderId : Nat) : DB × Except DaoError Nat :=
  let ingRows := (db.orderIngredients.filter (fun p => p.1 == orderId)).map (fun p => p.2)
  let cat1 := ingRows.foldl incrementAvail db.catalog
  let oi1 := db.orderIngredients.filter (fun p => !(p.1 == orderId))
  let deleted := db.orders.filter (fun r => r.id == orderId && r.userId == userId)
  let orders1 := db.orders.filter (fun r => !(r.id == orderId && r.userId == userId))
  ({ db with catalog := cat1, orderIngredients := oi1, orders := orders1 },
   .ok deleted.length)

/-- The outcomes of the `POST /api/orders` route. -/
inductive ApiResult where
  /-- 422: an `express-validator` check failed. -/
  | unprocessable
  /-- 400 with a validation violation message. -/
  | badRequest (v : Violation)
  /-- 400 with the `error` field of a DAO rejection. -/
  | daoError (e : DaoError)
  /-- 200 with `{ id }` of the created order. -/
  | created (id : Nat)
deriving Repr, DecidableEq

/-- Source `index.js` 114–240, the `POST /api/orders` route.  The three catalog
reads of the handler are not wrapped in any transaction, so a concurrent
commit may land between any two of them: `cat1` is the catalog snapshot
observed by the initial validation, `cat2` the snapshot observed by the
final availability check, and `db` the database state the DAO transaction
runs against.  A purely sequential request is
`postOrder db.catalog db.catalog db`. -/
def postOrder (cat1 cat2 : Catalog) (db : DB) (userId : Nat) (o : OrderReq) :
    DB × ApiResult :=
  if o.dishId < 1 || o.sizeId < 1 || decide (o.total < 0) then (db, .unprocessable)
  else
    match validateOrder cat1 o with
    | some v => (db, .badRequest v)
    | none =>
      match finalCheck cat2 o.ingredients with
      | some v => (db, .badRequest v)
      | none =>
        match createOrder noFail db userId o with
        | (db', .ok oid) => (db', .created oid)
        | (db', .error e) => (db', .daoError e)

/-- Availability column of the (first) ingredient row with the given id:
`none` when no such row exists. -/
def availOf (c : Catalog) (iid : Nat) : Option (Option Int) :=
  (c.ingredients.find? (fun i => i.id == iid)).map (fun i => i.availability)

/-- The inventory invariant of the spec: no tracked availability is
negative (an untracked `none` availability reads as `0 ≤ 0`). -/
abbrev invOk (c : Catalog) : Prop :=
  ∀ i ∈ c.ingredients, 0 ≤ i.availability.getD 0

/-- Unlimited ingredients stay unlimited (hence are neither decremented
nor incremented) between two catalog states. -/
def keepsUnlimited (c c' : Catalog) : Prop :=
  ∀ iid, availOf c iid = some none → availOf c' iid = some none

/-- Structural well-formedness of a database state, as guaranteed by the
SQL schema and seed: availabilities non-negative, ingredient ids unique
(`ingredients` primary key), and all existing order ids below the
`AUTOINCREMENT` counter. -/
abbrev WellFormed (db : DB) : Prop :=
  invOk db.catalog ∧
  (db.catalog.ingredients.map (fun i => i.id)).Nodup ∧
  (∀ p ∈ db.orderIngredients, p.1 < db.nextOrderId) ∧
  (∀ r ∈ db.orders, r.id < db.nextOrderId)

/-- The catalog seeded by `init_db.sql`. -/
def seedCatalog : Catalog :=
  { dishes := [⟨1, "Pizza"⟩, ⟨2, "Pasta"⟩, ⟨3, "Salad"⟩],
    sizes := [⟨1, "Small", 5, 3⟩, ⟨2, "Medium", 7, 5⟩, ⟨3, "Large", 9, 7⟩],
    ingredients :=
      [⟨1, "Mozzarella", 1, some 3⟩, ⟨2, "Tomatoes", 1/2, none⟩,
       ⟨3, "Mushrooms", 4/5, some 3⟩, ⟨4, "Ham", 6/5, some 2⟩,
       ⟨5, "Olives", 7/10, none⟩, ⟨6, "Tuna", 3/2, some 2⟩,
       ⟨7, "Eggs", 1, none⟩, ⟨8, "Anchovies", 3/2, some 1⟩,
       ⟨9, "Parmesan", 6/5, none⟩, ⟨10, "Carrots", 2/5, none⟩,
       ⟨11, "Potatoes", 3/10, none⟩],
    dependencies := [(2, 5), (9, 1), (1, 2), (6, 5)],
    incompatibilities := [(7, 3), (3, 7), (7, 2), (2, 7), (4, 3), (3, 4), (5, 8), (8, 5)] }

/-- The database seeded by `init_db.sql` (orders 1–2 belong to user 1,
orders 3–4 to user 2). -/
def seedDB : DB :=
  { catalog := seedCatalog,
    orders := [⟨1, 1, 1, 1, 31/5⟩, ⟨2, 1, 2, 1, 13/2⟩,
               ⟨3, 2, 2, 2, 97/10⟩, ⟨4, 2, 3, 3, 58/5⟩],
    orderIngredients := [(1, 2), (1, 5), (2, 1), (2, 2), (3, 3),
                         (3, 4), (3, 5), (4, 6), (4, 5), (4, 10)],
    nextOrderId := 5 }

/-- A minimal catalog with no dependency or incompatibility edges. -/
def catNoDeps : Catalog :=
  { dishes := [⟨1, "Pizza"⟩],
    sizes := [⟨1, "Small", 5, 3⟩],
    ingredients := [⟨1, "Mozzarella", 1, some 3⟩, ⟨2, "Tomatoes", 1, none⟩],
    dependencies := [],
    incompatibilities := [] }

/-- The same catalog after a dependency row (1 → 2) has been added. -/
def catWithDep : Catalog :=
  { catNoDeps with dependencies := [(1, 2)] }

/-- An empty database over `catNoDeps`. -/
def dbNoDeps : DB :=
  { catalog := catNoDeps, orders := [], orderIngredients := [], nextOrderId := 1 }

/-- An empty database over `catWithDep`. -/
def dbWithDep : DB :=
  { catalog := catWithDep, orders := [], orderIngredients := [], nextOrderId := 1 }

/-- A catalog whose only ingredient is tracked and out of stock. -/
def catOneOutOfStock : Catalog :=
  { dishes := [⟨1, "Pizza"⟩],
    sizes := [⟨1, "Small", 5, 3⟩],
    ingredients := [⟨1, "A", 1, some 0⟩],
    dependencies := [],
    incompatibilities := [] }

/-- An empty database over `catOneOutOfStock`. -/
def dbOutOfStock : DB :=
  { catalog := catOneOutOfStock, orders := [], orderIngredients := [], nextOrderId := 1 }

/-- The state `dbOutOfStock` reaches after committing an order for its
out-of-stock ingredient (the conditional decrement matches zero rows). -/
def dbOutOfStockAfter : DB :=
  { catalog := catOneOutOfStock, orders := [⟨1, 1, 1, 1, 6⟩],
    orderIngredients := [(1, 1)], nextOrderId := 2 }

/-- An empty database over the seed catalog (no orders yet). -/
def emptySeedDB : DB :=
  { catalog := seedCatalog, orders := [], orderIngredients := [], nextOrderId := 1 }

/-! ## General lemmas about the row-level availability updates -/

theorem decRow_id (j : Nat) (x : Ingredient) : (decRow j x).id = x.id := by
  unfold decRow
  split
  · cases h : x.availability with
    | none => rfl
    | some a =>
      dsimp only
      split <;> rfl
  · rfl

theorem incRow_id (j : Nat) (x : Ingredient) : (incRow j x).id = x.id := by
  unfold incRow
  split
  · cases h : x.availability with
    | none => rfl
    | some a => rfl
  · rfl

theorem find?_map_presId (g : Ingredient → Ingredient) (hg : ∀ x, (g x).id = x.id)
    (l : List Ingredient) (iid : Nat) :
    (l.map g).find? (fun i => i.id == iid) = (l.find? (fun i => i.id == iid)).map g := by
  induction l with
  | nil => rfl
  | cons x xs ih =>
    by_cases h : x.id == iid
    · simp [List.find?, hg x, h]
    · simp [List.find?, hg x, h, ih]

theorem availOf_decrementAvail_zero (c : Catalog) (j i : Nat)
    (h : availOf c i = some (some 0)) :
    availOf (decrementAvail c j) i = some (some 0) := by
  unfold availOf at h ⊢
  unfold decrementAvail
  rw [find?_map_presId (decRow j) (decRow_id j)]
  obtain ⟨x, hx, hav⟩ := Option.map_eq_some'.mp h
  rw [hx]
  simp only [Option.map_some']
  unfold decRow
  by_cases hij : x.id == j
  · simp [hij, hav]
  · simp [hij, hav]

theorem availOf_foldl_decrementAvail_zero (i : Nat) (l : List Nat) :
    ∀ c : Catalog, availOf c i = some (some 0) →
      availOf (l.foldl decrementAvail c) i = some (some 0) := by
  induction l with
  | nil => intro c h; simpa using h
  | cons j l ih =>
    intro c h
    simpa using ih (decrementAvail c j) (availOf_decrementAvail_zero c j i h)

theorem availOf_decrementAvail_none (c : Catalog) (j i : Nat)
    (h : availOf c i = some none) :
    availOf (decrementAvail c j) i = some none := by
  unfold availOf at h ⊢
  unfold decrementAvail
  rw [find?_map_presId (decRow j) (decRow_id j)]
  obtain ⟨x, hx, hav⟩ := Option.map_eq_some'.mp h
  rw [hx]
  simp only [Option.map_some']
  unfold decRow
  by_cases hij : x.id == j
  · simp [hij, hav]
  · simp [hij, hav]

theorem availOf_incrementAvail_none (c : Catalog) (j i : Nat)
    (h : availOf c i = some none) :
    availOf (incrementAvail c j) i = some none := by
  unfold availOf at h ⊢
  unfold incrementAvail
  rw [find?_map_presId (incRow j) (incRow_id j)]
  obtain ⟨x, hx, hav⟩ := Option.map_eq_some'.mp h
  rw [hx]
  simp only [Option.map_some']
  unfold incRow
  by_cases hij : x.id == j
  · simp [hij, hav]
  · simp [hij, hav]

theorem keepsUnlimited_foldl_decrementAvail (l : List Nat) :
    ∀ c : Catalog, keepsUnlimited c (l.foldl decrementAvail c) := by
  induction l with
  | nil => intro c iid h; simpa using h
  | cons j l ih =>
    intro c iid h
    simpa using ih (decrementAvail c j) iid (availOf_decrementAvail_none c j iid h)

theorem keepsUnlimited_foldl_incrementAvail (l : List Nat) :
    ∀ c : Catalog, keepsUnlimited c (l.foldl incrementAvail c) := by
  induction l with
  | nil => intro c iid h; simpa using h
  | cons j l ih =>
    intro c iid h
    simpa using ih (incrementAvail c j) iid (availOf_incrementAvail_none c j iid h)

theorem invOk_decrementAvail (c : Catalog) (j : Nat) (h : invOk c) :
    invOk (decrementAvail c j) := by
  intro i hi
  unfold decrementAvail at hi
  obtain ⟨x, hx, rfl⟩ := List.mem_map.mp hi
  have hx0 := h x hx
  unfold decRow
  by_cases hij : x.id == j
  · cases ha : x.availability with
    | none => simp [hij, ha]
    | some a =>
      rw [ha] at hx0
      simp only [Option.getD_some] at hx0
      by_cases hap : 0 < a
      · simp [hij, ha, hap]
        omega
      · simp [hij, ha, hap, hx0]
  · simpa [hij] using hx0

theorem invOk_incrementAvail (c : Catalog) (j : Nat) (h : invOk c) :
    invOk (incrementAvail c j) := by
  intro i hi
  unfold incrementAvail at hi
  obtain ⟨x, hx, rfl⟩ := List.mem_map.mp hi
  have hx0 := h x hx
  unfold incRow
  by_cases hij : x.id == j
  · cases ha : x.availability with
    | none => simp [hij, ha]
    | some a =>
      rw [ha] at hx0
      simp only [Option.getD_some] at hx0
      simp [hij, ha]
      omega
  · simpa [hij] using hx0

theorem invOk_foldl_decrementAvail (l : List Nat) :
    ∀ c : Catalog, invOk c → invOk (l.foldl decrementAvail c) := by
  induction l with
  | nil => intro c h; simpa using h
  | cons j l ih =>
    intro c h
    simpa using ih (decrementAvail c j) (invOk_decrementAvail c j h)

theorem invOk_foldl_incrementAvail (l : List Nat) :
    ∀ c : Catalog, invOk c → invOk (l.foldl incrementAvail c) := by
  induction l with
  | nil => intro c h; simpa using h
  | cons j l ih =>
    intro c h
    simpa using ih (incrementAvail c j) (invOk_incrementAvail c j h)

/-! ## Structural lemmas about the `createOrder` transaction -/

theorem processIngredients_ok_spec (f : FailSpec) (db0 : DB) (oid : Nat) :
    ∀ (rest : List Nat) (db : DB) (idx : Nat) (db' : DB) (r : Nat),
      processIngredients f db0 oid db idx rest = (db', .ok r) →
      r = oid ∧ db'.catalog = rest.foldl decrementAvail db.catalog ∧
      db'.orders = db.orders ∧
      db'.orderIngredients = db.orderIngredients ++ rest.map (fun i => (oid, i)) ∧
      db'.nextOrderId = db.nextOrderId := by
  intro rest
  induction rest with
  | nil =>
    intro db idx db' r h
    by_cases hc : f.commitFails <;> simp [processIngredients, hc] at h
    obtain ⟨h1, h2⟩ := h
    subst h1; subst h2
    simp
  | cons iid rest ih =>
    intro db idx db' r h
    simp only [processIngredients] at h
    by_cases ha : f.addIngredientFails idx
    · simp [ha] at h
    · simp only [ha, Bool.false_eq_true, if_false] at h
      cases hins : insertOrderIngredient db oid iid with
      | none => rw [hins] at h; simp at h
      | some db1 =>
        rw [hins] at h
        by_cases hu : f.updateAvailabilityFails idx
        · simp [hu] at h
        · simp only [hu, Bool.false_eq_true, if_false] at h
          obtain ⟨hr, hcat, hord, hoi, hnext⟩ := ih _ _ _ _ h
          obtain ⟨hnotmem, hdb1⟩ :
              (oid, iid) ∉ db.orderIngredients ∧
                { db with orderIngredients := db.orderIngredients ++ [(oid, iid)] } = db1 := by
            simpa [insertOrderIngredient] using hins
          subst hdb1
          refine ⟨hr, ?_, ?_, ?_, ?_⟩
          · simpa using hcat
          · simpa using hord
          · simpa [List.append_assoc] using hoi
          · simpa using hnext

theorem processIngredients_err_spec (f : FailSpec) (db0 : DB) (oid : Nat) :
    ∀ (rest : List Nat) (db : DB) (idx : Nat) (db' : DB) (e : DaoError),
      processIngredients f db0 oid db idx rest = (db', .error e) → db' = db0 := by
  intro rest
  induction rest with
  | nil =>
    intro db idx db' e h
    by_cases hc : f.commitFails <;> simp [processIngredients, hc] at h
    exact h.1.symm
  | cons iid rest ih =>
    intro db idx db' e h
    simp only [processIngredients] at h
    by_cases ha : f.addIngredientFails idx
    · simp [ha] at h; exact h.1.symm
    · simp only [ha, Bool.false_eq_true, if_false] at h
      cases hins : insertOrderIngredient db oid iid with
      | none => rw [hins] at h; simp at h; exact h.1.symm
      | some db1 =>
        rw [hins] at h
        by_cases hu : f.updateAvailabilityFails idx
        · simp [hu] at h; exact h.1.symm
        · simp only [hu, Bool.false_eq_true, if_false] at h
          exact ih _ _ _ _ h

theorem processIngredients_ok_nodup (f : FailSpec) (db0 : DB) (oid : Nat) :
    ∀ (rest : List Nat) (db : DB) (idx : Nat) (db' : DB) (r : Nat),
      processIngredients f db0 oid db idx rest = (db', .ok r) →
      rest.Nodup ∧ ∀ j ∈ rest, (oid, j) ∉ db.orderIngredients := by
  intro rest
  induction rest with
  | nil => intro db idx db' r _; simp
  | cons iid rest ih =>
    intro db idx db' r h
    simp only [processIngredients] at h
    by_cases ha : f.addIngredientFails idx
    · simp [ha] at h
    · simp only [ha, Bool.false_eq_true, if_false] at h
      cases hins : insertOrderIngredient db oid iid with
      | none => rw [hins] at h; simp at h
      | some db1 =>
        rw [hins] at h
        by_cases hu : f.updateAvailabilityFails idx
        · simp [hu] at h
        · simp only [hu, Bool.false_eq_true, if_false] at h
          obtain ⟨hnd, hni⟩ := ih _ _ _ _ h
          obtain ⟨hnotmem, hdb1⟩ :
              (oid, iid) ∉ db.orderIngredients ∧
                { db with orderIngredients := db.orderIngredients ++ [(oid, iid)] } = db1 := by
            simpa [insertOrderIngredient] using hins
          subst hdb1
          constructor
          · refine List.nodup_cons.mpr ⟨?_, hnd⟩
            intro hin
            exact hni iid hin (by simp)
          · intro j hj
            rcases List.mem_cons.mp hj with rfl | hj'
            · exact hnotmem
            · intro hcontra
              exact hni j hj' (by simp [hcontra])

theorem processIngredients_noFail_shape (db0 : DB) (oid : Nat) :
    ∀ (rest : List Nat) (db : DB) (idx : Nat),
      (∃ db' n, processIngredients noFail db0 oid db idx rest = (db', .ok n)) ∨
      processIngredients noFail db0 oid db idx rest = (db0, .error .failedAddIngredients) := by
  intro rest
  induction rest with
  | nil =>
    intro db idx
    left
    exact ⟨db, oid, by simp [processIngredients, noFail]⟩
  | cons iid rest ih =>
    intro db idx
    simp only [processIngredients, noFail, Bool.false_eq_true, if_false]
    cases hins : insertOrderIngredient db oid iid with
    | none => right; rfl
    | some db1 =>
      exact ih _ _

theorem createOrder_ok_spec (f : FailSpec) (db : DB) (u : Nat) (o : OrderReq)
    (db' : DB) (oid : Nat) (h : createOrder f db u o = (db', .ok oid)) :
    oid = db.nextOrderId ∧
    db'.orders = db.orders ++ [⟨oid, u, o.dishId, o.sizeId, o.total⟩] ∧
    db'.orderIngredients = db.orderIngredients ++ o.ingredients.map (fun i => (oid, i)) ∧
    db'.catalog = o.ingredients.foldl decrementAvail db.catalog ∧
    db'.nextOrderId = oid + 1 := by
  unfold createOrder at h
  by_cases hb : f.beginFails
  · simp [hb] at h
  · simp only [hb, Bool.false_eq_true, if_false] at h
    by_cases hi : f.insertOrderFails
    · simp [hi] at h
    · simp only [hi, Bool.false_eq_true, if_false] at h
      by_cases hing : o.ingredients.isEmpty
      · have hnil : o.ingredients = [] := List.isEmpty_iff.mp hing
        simp only [hing, if_true] at h
        by_cases hc : f.commitFails
        · simp [hc] at h
        · simp only [hc, Bool.false_eq_true, if_false, Prod.mk.injEq,
            Except.ok.injEq] at h
          obtain ⟨h1, h2⟩ := h
          subst h1; subst h2
          simp [hnil]
      · simp only [hing, Bool.false_eq_true, if_false] at h
        obtain ⟨hr, hcat, hord, hoi, hnext⟩ :=
          processIngredients_ok_spec f db db.nextOrderId o.ingredients _ 0 db' oid h
        subst hr
        exact ⟨rfl, by simpa using hord, by simpa using hoi,
          by simpa using hcat, by simpa using hnext⟩

theorem createOrder_err_spec (f : FailSpec) (db : DB) (u : Nat) (o : OrderReq)
    (db' : DB) (e : DaoError) (h : createOrder f db u o = (db', .error e)) :
    db' = db := by
  unfold createOrder at h
  by_cases hb : f.beginFails
  · simp [hb] at h; exact h.1.symm
  · simp only [hb, Bool.false_eq_true, if_false] at h
    by_cases hi : f.insertOrderFails
    · simp [hi] at h; exact h.1.symm
    · simp only [hi, Bool.false_eq_true, if_false] at h
      by_cases hing : o.ingredients.isEmpty
      · simp only [hing, if_true] at h
        by_cases hc : f.commitFails
        · simp [hc] at h; exact h.1.symm
        · simp [hc] at h
      · simp only [hing, Bool.false_eq_true, if_false] at h
        exact processIngredients_err_spec f db db.nextOrderId o.ingredients _ 0 db' e h

theorem createOrder_ok_nodup (f : FailSpec) (db : DB) (u : Nat) (o : OrderReq)
    (db' : DB) (oid : Nat) (h : createOrder f db u o = (db', .ok oid)) :
    o.ingredients.Nodup := by
  unfold createOrder at h
  by_cases hb : f.beginFails
  · simp [hb] at h
  · simp only [hb, Bool.false_eq_true, if_false] at h
    by_cases hi : f.insertOrderFails
    · simp [hi] at h
    · simp only [hi, Bool.false_eq_true, if_false] at h
      by_cases hing : o.ingredients.isEmpty
      · simp [List.isEmpty_iff.mp hing]
      · simp only [hing, Bool.false_eq_true, if_false] at h
        exact (processIngredients_ok_nodup f db db.nextOrderId o.ingredients _ 0 db' oid h).1

/-- Inversion of a `.created` outcome of the `POST /api/orders` route: the
initial validation and the final check both passed and the DAO transaction
committed. -/
theorem postOrder_created_spec (cat1 cat2 : Catalog) (db : DB) (u : Nat)
    (o : OrderReq) (oid : Nat)
    (h : (postOrder cat1 cat2 db u o).2 = .created oid) :
    ∃ db', validateOrder cat1 o = none ∧ finalCheck cat2 o.ingredients = none ∧
      createOrder noFail db u o = (db', .ok oid) ∧
      (postOrder cat1 cat2 db u o).1 = db' := by
  rcases hco : createOrder noFail db u o with ⟨dbc, rc⟩
  unfold postOrder at h ⊢
  split at h
  · simp at h
  · rename_i hc
    simp only [Bool.not_eq_true] at hc
    simp only [hc, Bool.false_eq_true, if_false]
    cases hv : validateOrder cat1 o with
    | some v => simp only [hv] at h; simp at h
    | none =>
      simp only [hv] at h ⊢
      cases hfc : finalCheck cat2 o.ingredients with
      | some v => simp only [hfc] at h; simp at h
      | none =>
        simp only [hfc] at h ⊢
        simp only [hco] at h ⊢
        cases rc with
        | ok oid2 =>
          simp at h
          subst h
          exact ⟨dbc, by trivial, by trivial, by trivial, by trivial⟩
        | error e => simp at h

/-- C6: `createOrder` is atomic — for every input and every injected
storage-failure pattern, either the order row, all of its association
rows, and all conditional availability decrements are persisted together
(with the fresh `AUTOINCREMENT` id), or the call rejects and the returned
state is exactly the input state: no order row, no association row and no
availability change persists. -/
theorem createOrder_atomic (f : FailSpec) (db : DB) (u : Nat) (o : OrderReq) :
    (∃ db' oid, createOrder f db u o = (db', .ok oid) ∧
      oid = db.nextOrderId ∧
      db'.orders = db.orders ++ [⟨oid, u, o.dishId, o.sizeId, o.total⟩] ∧
      db'.orderIngredients = db.orderIngredients ++ o.ingredients.map (fun i => (oid, i)) ∧
      db'.catalog = o.ingredients.foldl decrementAvail db.catalog ∧
      db'.nextOrderId = oid + 1) ∨
    (∃ e, createOrder f db u o = (db, .error e)) := by
  rcases h : createOrder f db u o with ⟨db', r⟩
  cases r with
  | ok oid =>
    left
    obtain ⟨h1, h2, h3, h4, h5⟩ := createOrder_ok_spec f db u o db' oid h
    exact ⟨db', oid, rfl, h1, h2, h3, h4, h5⟩
  | error e =>
    right
    have hdb := createOrder_err_spec f db u o db' e h
    subst hdb
    exact ⟨e, rfl⟩

/-- C10: an ingredient list containing the same id twice always violates
the `(order_id, ingredient_id)` primary key of `order_ingredients` during
the association-insert loop, so the transaction rolls back: the call
rejects with the `Failed to add ingredients` error and the database state
is unchanged — no order row, no association row, no availability change. -/
theorem duplicate_ingredient_rejected_atomically (db : DB) (u : Nat) (o : OrderReq)
    (hdup : ¬ o.ingredients.Nodup) :
    createOrder noFail db u o = (db, .error .failedAddIngredients) := by
  have hne : o.ingredients.isEmpty = false := by
    rcases h : o.ingredients.isEmpty with _ | _
    · rfl
    · exact absurd (by simp [List.isEmpty_iff.mp h]) hdup
  rcases processIngredients_noFail_shape db db.nextOrderId o.ingredients
      { db with
        orders := db.orders ++ [⟨db.nextOrderId, u, o.dishId, o.sizeId, o.total⟩],
        nextOrderId := db.nextOrderId + 1 } 0 with ⟨db', n, hok⟩ | herr
  · exact absurd
      (processIngredients_ok_nodup noFail db db.nextOrderId o.ingredients _ 0 db' n hok).1
      hdup
  · unfold createOrder
    simp only [noFail, Bool.false_eq_true, if_false, hne]
    exact herr

/-- Witness for C10 at a concrete input: the list `[5, 5]` is rejected on
the seeded database with no state change. -/
theorem duplicate_ingredient_rejected_atomically_witness :
    (¬ ([5, 5] : List Nat).Nodup) ∧
    createOrder noFail seedDB 1 ⟨1, 2, [5, 5], 0⟩ = (seedDB, .error .failedAddIngredients) :=
  ⟨by decide, duplicate_ingredient_rejected_atomically seedDB 1 ⟨1, 2, [5, 5], 0⟩ (by decide)⟩

/-- C1 (code bug): on the seeded database, user 1 deletes order 3, which
belongs to user 2.  The call reports `rowsAffected = 0` without error, but
it *does* mutate state: the tracked ingredients of order 3 (Mushrooms 3→4,
Ham 2→3) are released and order 3's association rows are deleted, while
order 3's row itself survives — contradicting the claim that such a call
leaves every availability and every association row unchanged. -/
theorem deleteOrder_foreign_user_mutates_state :
    (deleteOrder seedDB 1 3).2 = .ok 0 ∧
    availOf seedDB.catalog 3 = some (some 3) ∧
    availOf (deleteOrder seedDB 1 3).1.catalog 3 = some (some 4) ∧
    availOf seedDB.catalog 4 = some (some 2) ∧
    availOf (deleteOrder seedDB 1 3).1.catalog 4 = some (some 3) ∧
    seedDB.orderIngredients.filter (fun p => p.1 == 3) = [(3, 3), (3, 4), (3, 5)] ∧
    (deleteOrder seedDB 1 3).1.orderIngredients.filter (fun p => p.1 == 3) = [] ∧
    (∃ r ∈ (deleteOrder seedDB 1 3).1.orders, r.id = 3 ∧ r.userId = 2) := by
  decide

/-- C2 (counterexample): the catalog gains the dependency row (1 → 2)
between the initial-validation read (`catNoDeps`) and the commit-time
reads (`catWithDep`).  Against the commit-time catalog the candidate set
`[1]` violates the dependency check (`validateOrder` reports
`Mozzarella requires Tomatoes`), yet the order is accepted and persisted —
refuting the claim that all five checks are re-run at commit time. -/
theorem commit_time_revalidation_incomplete_cex :
    (postOrder catNoDeps dbWithDep.catalog dbWithDep 1 ⟨1, 1, [1], 6⟩).2 = .created 1 ∧
    (postOrder catNoDeps dbWithDep.catalog dbWithDep 1 ⟨1, 1, [1], 6⟩).1.orders ≠ [] ∧
    validateOrder dbWithDep.catalog ⟨1, 1, [1], 6⟩ =
      some (.missingDependency "Mozzarella" "Tomatoes") := by
  decide

/-- C2 (amended): only the existence and availability checks are re-run at
commit time; whenever that final check fails against the commit-time
catalog snapshot, the order is rejected and nothing is persisted. -/
theorem final_check_rejects_and_preserves (cat1 cat2 : Catalog) (db : DB) (u : Nat)
    (o : OrderReq) (hfc : finalCheck cat2 o.ingredients ≠ none) :
    (postOrder cat1 cat2 db u o).1 = db ∧
    ∀ oid, (postOrder cat1 cat2 db u o).2 ≠ .created oid := by
  unfold postOrder
  split
  · exact ⟨rfl, fun oid h => ApiResult.noConfusion h⟩
  · cases hv : validateOrder cat1 o with
    | some v => exact ⟨rfl, fun oid h => ApiResult.noConfusion h⟩
    | none =>
      cases hfc2 : finalCheck cat2 o.ingredients with
      | none => exact absurd hfc2 hfc
      | some v => exact ⟨rfl, fun oid h => ApiResult.noConfusion h⟩

/-- Witness for C2 (amended): the final check fails on `catOneOutOfStock`
(its only ingredient has availability 0), so the request is rejected with
no state change. -/
theorem final_check_rejects_and_preserves_witness :
    (finalCheck catOneOutOfStock ([1] : List Nat) ≠ none) ∧
    ((postOrder seedCatalog catOneOutOfStock dbOutOfStock 1 ⟨1, 1, [1], 6⟩).1 = dbOutOfStock ∧
      ∀ oid, (postOrder seedCatalog catOneOutOfStock dbOutOfStock 1 ⟨1, 1, [1], 6⟩).2 ≠
        .created oid) :=
  ⟨by decide,
   final_check_rejects_and_preserves seedCatalog catOneOutOfStock dbOutOfStock 1
     ⟨1, 1, [1], 6⟩ (by decide)⟩

/-- C3 (counterexample): the route accepts any client-supplied total that
passes `isFloat({min:0})` and persists it verbatim.  Here the catalog
prices are size `Small` = 5 and `Mozzarella` = 1, so the claimed snapshot
total is 6, yet the client sends `total = 0` and the committed order row
stores 0. -/
theorem persisted_total_not_recomputed_cex :
    (postOrder catNoDeps catNoDeps dbNoDeps 1 ⟨1, 1, [1], 0⟩).2 = .created 1 ∧
    (postOrder catNoDeps catNoDeps dbNoDeps 1 ⟨1, 1, [1], 0⟩).1.orders =
      [⟨1, 1, 1, 1, 0⟩] ∧
    getSizeById catNoDeps 1 = some ⟨1, "Small", 5, 3⟩ ∧
    getIngredientsByIds catNoDeps [1] = [⟨1, "Mozzarella", 1, some 3⟩] ∧
    (0 : Rat) ≠ 5 + 1 := by
  refine ⟨by decide, by decide, by decide, by decide, by norm_num⟩

/-- C3 (amended): for every order the route commits, the persisted order
row stores exactly the client-supplied `total` (validated only to be a
non-negative number); the server never recomputes
`size.price + Σ ingredient.price`. -/
theorem persisted_total_is_client_total (cat1 cat2 : Catalog) (db : DB) (u : Nat)
    (o : OrderReq) (oid : Nat)
    (h : (postOrder cat1 cat2 db u o).2 = .created oid) :
    (postOrder cat1 cat2 db u o).1.orders =
      db.orders ++ [⟨oid, u, o.dishId, o.sizeId, o.total⟩] := by
  obtain ⟨db', -, -, hco, hdb⟩ := postOrder_created_spec cat1 cat2 db u o oid h
  obtain ⟨-, h2, -, -, -⟩ := createOrder_ok_spec noFail db u o db' oid hco
  rw [hdb, h2]

/-- Witness for C3 (amended) at the counterexample input. -/
theorem persisted_total_is_client_total_witness :
    ((postOrder catNoDeps catNoDeps dbNoDeps 1 ⟨1, 1, [1], 0⟩).2 = .created 1) ∧
    (postOrder catNoDeps catNoDeps dbNoDeps 1 ⟨1, 1, [1], 0⟩).1.orders =
      dbNoDeps.orders ++ [⟨1, 1, 1, 1, (0 : Rat)⟩] :=
  ⟨by decide,
   persisted_total_is_client_total catNoDeps catNoDeps dbNoDeps 1 ⟨1, 1, [1], 0⟩ 1 (by decide)⟩

/-- C4 (counterexample): two requests race for the single remaining unit
of Anchovies (ingredient 8, availability 1).  Request T2 performs both its
validation read and its final-check read against the pre-commit snapshot
(`seedCatalog`), T1 commits, and T2's DAO transaction then runs on the
post-T1 state — a legal interleaving, since the handler's reads are not
inside the DAO transaction.  Both requests are accepted and committed,
refuting "never both succeed"; availability ends at 0 (the second
conditional decrement silently matched zero rows instead of failing). -/
theorem concurrent_last_unit_both_commit_cex :
    availOf seedCatalog 8 = some (some 1) ∧
    (postOrder seedCatalog seedCatalog emptySeedDB 1 ⟨1, 1, [8], 6⟩).2 = .created 1 ∧
    (postOrder seedCatalog seedCatalog
      (postOrder seedCatalog seedCatalog emptySeedDB 1 ⟨1, 1, [8], 6⟩).1
      2 ⟨1, 1, [8], 6⟩).2 = .created 2 ∧
    availOf (postOrder seedCatalog seedCatalog
      (postOrder seedCatalog seedCatalog emptySeedDB 1 ⟨1, 1, [8], 6⟩).1
      2 ⟨1, 1, [8], 6⟩).1.catalog 8 = some (some 0) := by
  decide

/-- C4 (amended): the conditional row-level decrement does not make the
second request fail — it makes it commit without consuming a unit: a
committed order leaves a tracked ingredient whose availability was already
0 at commit exactly at 0, never negative. -/
theorem createOrder_no_decrement_below_zero (f : FailSpec) (db : DB) (u : Nat)
    (o : OrderReq) (db' : DB) (oid iid : Nat)
    (h : createOrder f db u o = (db', .ok oid))
    (hz : availOf db.catalog iid = some (some 0)) :
    availOf db'.catalog iid = some (some 0) := by
  obtain ⟨-, -, -, hcat, -⟩ := createOrder_ok_spec f db u o db' oid h
  rw [hcat]
  exact availOf_foldl_decrementAvail_zero iid o.ingredients db.catalog hz

theorem checkIncompats_none (cat : Catalog) (current : List Ingredient) (ids : List Nat) :
    ∀ l : List Nat, checkIncompats cat current ids l = none →
      ∀ oid ∈ l, findPresentIncomp ids (getIngredientIncompatibilities cat oid) = none := by
  intro l
  induction l with
  | nil => intro _ oid h; cases h
  | cons x xs ih =>
    intro h oid hm
    cases hf : findPresentIncomp ids (getIngredientIncompatibilities cat x) with
    | some c => simp [checkIncompats, hf] at h
    | none =>
      simp only [checkIncompats, hf] at h
      rcases List.mem_cons.mp hm with rfl | hm'
      · exact hf
      · exact ih h oid hm'

theorem findPresentIncomp_none (ids : List Nat) :
    ∀ l : List Nat, findPresentIncomp ids l = none →
      ∀ c ∈ l, ids.contains c = false := by
  intro l
  induction l with
  | nil => intro _ c h; cases h
  | cons x xs ih =>
    intro h c hm
    by_cases hx : x ∈ ids
    · simp [findPresentIncomp, hx] at h
    · simp only [findPresentIncomp] at h
      rw [if_neg (by simpa using hx)] at h
      rcases List.mem_cons.mp hm with rfl | hm'
      · simpa using hx
      · exact ih h c hm'

/-- C9: incompatibility is enforced as an undirected relation at the
accepting interface — any candidate set that passes the full validation
contains no two ingredients connected by a directed incompatibility row in
either orientation (instantiate with `a`,`b` and with `b`,`a`), even
though each per-ingredient lookup queries only the
`ingredient1_id → ingredient2_id` direction. -/
theorem accepted_set_has_no_incompatible_pair (cat : Catalog) (o : OrderReq)
    (h : validateOrder cat o = none) :
    ∀ a b, a ∈ o.ingredients → b ∈ o.ingredients → (a, b) ∉ cat.incompatibilities := by
  intro a b ha hb hmem
  unfold validateOrder at h
  cases hd : getDishById cat o.dishId with
  | none => simp [hd] at h
  | some d =>
    simp only [hd] at h
    cases hs : getSizeById cat o.sizeId with
    | none => simp [hs] at h
    | some sz =>
      simp only [hs] at h
      unfold validateIngredients at h
      by_cases he : o.ingredients.isEmpty
      · rw [List.isEmpty_iff.mp he] at ha
        cases ha
      · simp only [he, Bool.false_eq_true, if_false] at h
        cases hea : checkExistAvail (getIngredientsByIds cat o.ingredients) o.ingredients with
        | some v => simp [hea] at h
        | none =>
          simp only [hea] at h
          by_cases hsz : o.ingredients.length > sz.maxIngredients
          · simp [hsz] at h
          · rw [if_neg hsz] at h
            cases hcd : checkDeps cat (getIngredientsByIds cat o.ingredients)
                o.ingredients o.ingredients with
            | some v => simp [hcd] at h
            | none =>
              simp only [hcd] at h
              have h1 := checkIncompats_none cat (getIngredientsByIds cat o.ingredients)
                o.ingredients o.ingredients h a ha
              have hbmem : b ∈ getIngredientIncompatibilities cat a := by
                unfold getIngredientIncompatibilities
                exact List.mem_map.mpr ⟨(a, b), List.mem_filter.mpr ⟨hmem, by simp⟩, rfl⟩
              have h2 := findPresentIncomp_none o.ingredients _ h1 b hbmem
              simp at h2
              exact h2 hb

/-- Witness for C9: the seed set `[1, 2, 5]` is accepted, so no
incompatibility row connects 1 and 2. -/
theorem accepted_set_has_no_incompatible_pair_witness :
    (validateOrder seedCatalog ⟨1, 2, [1, 2, 5], 6⟩ = none ∧
     (1 : Nat) ∈ ([1, 2, 5] : List Nat) ∧ (2 : Nat) ∈ ([1, 2, 5] : List Nat)) ∧
    (1, 2) ∉ seedCatalog.incompatibilities :=
  ⟨⟨by decide, by decide, by decide⟩,
   accepted_set_has_no_incompatible_pair seedCatalog ⟨1, 2, [1, 2, 5], 6⟩ (by decide) 1 2
     (by decide) (by decide)⟩

theorem find?_filter_contains (ids : List Nat) (oid : Nat) (hmem : oid ∈ ids) :
    ∀ l : List Ingredient,
      (l.filter (fun i => ids.contains i.id)).find? (fun i => i.id == oid) =
        l.find? (fun i => i.id == oid) := by
  intro l
  induction l with
  | nil => rfl
  | cons x xs ih =>
    by_cases hq : x.id ∈ ids
    · rw [List.filter_cons_of_pos (by simpa using hq)]
      by_cases hp : x.id = oid
      · rw [List.find?_cons_of_pos _ (by simpa using hp),
          List.find?_cons_of_pos _ (by simpa using hp)]
      · rw [List.find?_cons_of_neg _ (by simpa using hp),
          List.find?_cons_of_neg _ (by simpa using hp), ih]
    · rw [List.filter_cons_of_neg (by simpa using hq)]
      have hp : ¬ x.id = oid := fun hh => hq (hh ▸ hmem)
      rw [List.find?_cons_of_neg _ (by simpa using hp), ih]

theorem find?_getIngredientsByIds (cat : Catalog) (ids : List Nat) (oid : Nat)
    (hmem : oid ∈ ids) :
    (getIngredientsByIds cat ids).find? (fun i => i.id == oid) =
      cat.ingredients.find? (fun i => i.id == oid) := by
  unfold getIngredientsByIds
  have hne : ids.isEmpty = false := by
    cases ids with
    | nil => cases hmem
    | cons x xs => rfl
  simp only [hne, Bool.false_eq_true, if_false]
  exact find?_filter_contains ids oid hmem cat.ingredients

theorem checkExistAvail_skips_ok_prefix (current : List Ingredient) (id : Nat)
    (post : List Nat) :
    ∀ pre : List Nat,
      (∀ j ∈ pre, ∃ x, current.find? (fun i => i.id == j) = some x ∧
        x.availability ≠ some 0) →
      current.find? (fun i => i.id == id) = none →
      checkExistAvail current (pre ++ id :: post) = some (.unknownIngredient id) := by
  intro pre
  induction pre with
  | nil =>
    intro _ hnone
    simp [checkExistAvail, hnone]
  | cons j pre ih =>
    intro hpre hnone
    obtain ⟨x, hx, hxa⟩ := hpre j (by simp)
    have hav : (x.availability == some 0) = false := by
      simpa using hxa
    simp only [List.cons_append, checkExistAvail, hx, hav, Bool.false_eq_true, if_false]
    exact ih (fun j' hj' => hpre j' (by simp [hj'])) hnone

/-- C5 (counterexample): the candidate list `[1, 99]` contains the
existing but out-of-stock ingredient 1 first and a nonexistent id 99
second; the reported violation is `OutOfStock("A")`, not
`UnknownIngredient(99)` — so existence does *not* take precedence over
availability independently of position. -/
theorem out_of_stock_reported_before_unknown_cex :
    validateOrder catOneOutOfStock ⟨1, 1, [1, 99], 6⟩ = some (.outOfStock "A") ∧
    validateOrder catOneOutOfStock ⟨1, 1, [1, 99], 6⟩ ≠ some (.unknownIngredient 99) := by
  decide

/-- C5 (amended): existence and availability are checked together for each
candidate in input order, and the first failing candidate determines the
violation: whenever every candidate before position `i` exists and is in
stock and the candidate at position `i` does not exist in the catalog, the
reported violation is `UnknownIngredient` of that candidate — regardless
of what follows it. -/
theorem unknown_vs_out_of_stock_position (cat : Catalog) (dId sId : Nat) (t : Rat)
    (pre post : List Nat) (id : Nat)
    (hdish : getDishById cat dId ≠ none)
    (hsize : getSizeById cat sId ≠ none)
    (hpre : ∀ j ∈ pre, ∃ x, cat.ingredients.find? (fun i => i.id == j) = some x ∧
        x.availability ≠ some 0)
    (hid : cat.ingredients.find? (fun i => i.id == id) = none) :
    validateOrder cat ⟨dId, sId, pre ++ id :: post, t⟩ = some (.unknownIngredient id) := by
  unfold validateOrder
  cases hd : getDishById cat dId with
  | none => exact absurd hd hdish
  | some d =>
    cases hs : getSizeById cat sId with
    | none => exact absurd hs hsize
    | some sz =>
      dsimp only
      unfold validateIngredients
      have hne : (pre ++ id :: post).isEmpty = false := by
        simp [List.isEmpty_iff]
      simp only [hne, Bool.false_eq_true, if_false]
      have hcea : checkExistAvail (getIngredientsByIds cat (pre ++ id :: post))
          (pre ++ id :: post) = some (.unknownIngredient id) := by
        apply checkExistAvail_skips_ok_prefix
        · intro j hj
          obtain ⟨x, hx, hxa⟩ := hpre j hj
          refine ⟨x, ?_, hxa⟩
          rw [find?_getIngredientsByIds cat (pre ++ id :: post) j (by simp [hj])]
          exact hx
        · rw [find?_getIngredientsByIds cat (pre ++ id :: post) id (by simp)]
          exact hid
      simp [hcea]

/-- Witness for C5 (amended): with the in-stock ingredient 1 first and the
unknown id 99 second, the reported violation is `UnknownIngredient(99)`. -/
theorem unknown_vs_out_of_stock_position_witness :
    (getDishById catNoDeps 1 ≠ none ∧ getSizeById catNoDeps 1 ≠ none ∧
     (∀ j ∈ ([1] : List Nat), ∃ x,
        catNoDeps.ingredients.find? (fun i => i.id == j) = some x ∧
        x.availability ≠ some 0) ∧
     catNoDeps.ingredients.find? (fun i => i.id == 99) = none) ∧
    validateOrder catNoDeps ⟨1, 1, [1] ++ 99 :: [], 6⟩ = some (.unknownIngredient 99) := by
  refine ⟨⟨by decide, by decide, ?_, by decide⟩, ?_⟩
  · intro j hj
    have hj1 : j = 1 := by simpa using hj
    subst hj1
    exact ⟨⟨1, "Mozzarella", 1, some 3⟩, by decide, by decide⟩
  · exact unknown_vs_out_of_stock_position catNoDeps 1 1 6 [1] [] 99 (by decide) (by decide)
      (fun j hj => by
        have hj1 : j = 1 := by simpa using hj
        subst hj1
        exact ⟨⟨1, "Mozzarella", 1, some 3⟩, by decide, by decide⟩)
      (by decide)

/-- C7: both engine operations preserve the inventory invariant — no
tracked availability ever becomes negative, and an unlimited (`NULL`)
availability stays unlimited (it is neither decremented on reservation nor
incremented on release). -/
theorem engine_preserves_inventory_invariant (f : FailSpec) (db : DB) (u : Nat)
    (o : OrderReq) (uid oid : Nat) (hinv : invOk db.catalog) :
    (invOk ((createOrder f db u o).1).catalog ∧
      keepsUnlimited db.catalog ((createOrder f db u o).1).catalog) ∧
    (invOk ((deleteOrder db uid oid).1).catalog ∧
      keepsUnlimited db.catalog ((deleteOrder db uid oid).1).catalog) := by
  constructor
  · rcases h : createOrder f db u o with ⟨db', r⟩
    cases r with
    | ok n =>
      obtain ⟨-, -, -, hcat, -⟩ := createOrder_ok_spec f db u o db' n h
      dsimp only
      rw [hcat]
      exact ⟨invOk_foldl_decrementAvail o.ingredients db.catalog hinv,
        keepsUnlimited_foldl_decrementAvail o.ingredients db.catalog⟩
    | error e =>
      have hdb := createOrder_err_spec f db u o db' e h
      subst hdb
      exact ⟨hinv, fun iid hi => hi⟩
  · constructor
    · exact invOk_foldl_incrementAvail _ db.catalog hinv
    · exact keepsUnlimited_foldl_incrementAvail _ db.catalog

/-! ## Round-trip machinery: an increment cancels a decrement -/

theorem decRow_not_target (j : Nat) (x : Ingredient) (h : (x.id == j) = false) :
    decRow j x = x := by
  simp [decRow, h]

theorem incRow_not_target (j : Nat) (x : Ingredient) (h : (x.id == j) = false) :
    incRow j x = x := by
  simp [incRow, h]

theorem incRow_decRow_comm (i j : Nat) (hne : i ≠ j) (x : Ingredient) :
    incRow i (decRow j x) = decRow j (incRow i x) := by
  by_cases hxi : (x.id == i) = true
  · have hxj : (x.id == j) = false := by
      simp only [beq_iff_eq] at hxi
      simp only [beq_eq_false_iff_ne]
      rw [hxi]
      exact hne
    rw [decRow_not_target j x hxj,
      decRow_not_target j (incRow i x) (by rw [incRow_id]; exact hxj)]
  · have hxi2 : (x.id == i) = false := by simpa using hxi
    rw [incRow_not_target i (decRow j x) (by rw [decRow_id]; exact hxi2),
      incRow_not_target i x hxi2]

theorem incrementAvail_decrementAvail_comm (c : Catalog) (i j : Nat) (hne : i ≠ j) :
    incrementAvail (decrementAvail c j) i = decrementAvail (incrementAvail c i) j := by
  cases c with
  | mk ds szs ings deps incs =>
    unfold incrementAvail decrementAvail
    simp only [List.map_map]
    have hfun : (incRow i ∘ decRow j) = (decRow j ∘ incRow i) :=
      funext (fun x => incRow_decRow_comm i j hne x)
    rw [hfun]

theorem incrementAvail_foldl_decrementAvail_comm (i : Nat) :
    ∀ (l : List Nat) (c : Catalog), i ∉ l →
      incrementAvail (l.foldl decrementAvail c) i =
        l.foldl decrementAvail (incrementAvail c i) := by
  intro l
  induction l with
  | nil => intro c _; rfl
  | cons j l ih =>
    intro c hmem
    have hne : i ≠ j := fun hh => hmem (hh ▸ List.mem_cons_self j l)
    have hnl : i ∉ l := fun hh => hmem (List.mem_cons_of_mem j hh)
    simp only [List.foldl_cons]
    rw [ih (decrementAvail c j) hnl, incrementAvail_decrementAvail_comm c i j hne]

theorem map_id_of_forall {α : Type} (f : α → α) :
    ∀ l : List α, (∀ x ∈ l, f x = x) → l.map f = l := by
  intro l
  induction l with
  | nil => intro _; rfl
  | cons x xs ih =>
    intro h
    simp only [List.map_cons]
    rw [h x (List.mem_cons_self x xs), ih (fun y hy => h y (List.mem_cons_of_mem x hy))]

theorem incrementAvail_decrementAvail_cancel (c : Catalog) (iid : Nat)
    (hcond : ∀ x ∈ c.ingredients, x.id = iid →
      x.availability = none ∨ ∃ a : Int, x.availability = some a ∧ 1 ≤ a) :
    incrementAvail (decrementAvail c iid) iid = c := by
  cases c with
  | mk ds szs ings deps incs =>
    unfold incrementAvail decrementAvail
    simp only [List.map_map]
    congr 1
    apply map_id_of_forall
    intro x hx
    simp only [Function.comp]
    by_cases hid : (x.id == iid) = true
    · rcases hcond x hx (by simpa using hid) with hnone | ⟨a, ha, ha1⟩
      · have hd1 : decRow iid x = x := by simp [decRow, hid, hnone]
        have hi1 : incRow iid x = x := by simp [incRow, hid, hnone]
        rw [hd1, hi1]
      · have h1 : decRow iid x = { x with availability := some (a - 1) } := by
          simp [decRow, hid, ha, show (0 : Int) < a from by omega]
        have h2 : incRow iid { x with availability := some (a - 1) } =
            { x with availability := some (a - 1 + 1) } := by
          simp [incRow, hid]
        rw [h1, h2]
        have h3 : a - 1 + 1 = a := by omega
        rw [h3]
        cases x with
        | mk xid xn xp xa =>
          simp only [Ingredient.mk.injEq, and_true, true_and]
          simpa using ha.symm
    · have hid2 : (x.id == iid) = false := by simpa using hid
      rw [decRow_not_target iid x hid2, incRow_not_target iid x hid2]

theorem foldl_incrementAvail_decrementAvail_cancel :
    ∀ (l : List Nat) (c : Catalog), l.Nodup →
      (∀ iid ∈ l, ∀ x ∈ c.ingredients, x.id = iid →
        x.availability = none ∨ ∃ a : Int, x.availability = some a ∧ 1 ≤ a) →
      List.foldl incrementAvail (List.foldl decrementAvail c l) l = c := by
  intro l
  induction l with
  | nil => intro c _ _; rfl
  | cons i l ih =>
    intro c hnd hcond
    have hi : i ∉ l := (List.nodup_cons.mp hnd).1
    have hnd' : l.Nodup := (List.nodup_cons.mp hnd).2
    simp only [List.foldl_cons]
    rw [incrementAvail_foldl_decrementAvail_comm i l (decrementAvail c i) hi,
      incrementAvail_decrementAvail_cancel c i
        (hcond i (List.mem_cons_self i l)),
      ih c hnd' (fun iid hiid => hcond iid (List.mem_cons_of_mem i hiid))]

theorem checkExistAvail_none_spec (current : List Ingredient) :
    ∀ ids : List Nat, checkExistAvail current ids = none →
      ∀ id ∈ ids, ∃ x, current.find? (fun i => i.id == id) = some x ∧
        x.availability ≠ some 0 := by
  intro ids
  induction ids with
  | nil => intro _ id h; cases h
  | cons j rest ih =>
    intro h id hm
    cases hf : current.find? (fun i => i.id == j) with
    | none => simp [checkExistAvail, hf] at h
    | some x =>
      simp only [checkExistAvail, hf] at h
      by_cases hav : (x.availability == some 0) = true
      · simp [hav] at h
      · have hav2 : (x.availability == some 0) = false := by simpa using hav
        simp only [hav2, Bool.false_eq_true, if_false] at h
        rcases List.mem_cons.mp hm with rfl | hm'
        · exact ⟨x, hf, by simpa using hav⟩
        · exact ih h id hm'

theorem finalCheck_none_spec (cat : Catalog) (ids : List Nat)
    (h : finalCheck cat ids = none) :
    ∀ id ∈ ids, ∃ x, cat.ingredients.find? (fun i => i.id == id) = some x ∧
      x.availability ≠ some 0 := by
  intro id hm
  unfold finalCheck at h
  have hne : ids.isEmpty = false := by
    cases ids with
    | nil => cases hm
    | cons _ _ => rfl
  simp only [hne, Bool.false_eq_true, if_false] at h
  obtain ⟨x, hx, hav⟩ := checkExistAvail_none_spec (getIngredientsByIds cat ids) ids h id hm
  rw [find?_getIngredientsByIds cat ids id hm] at hx
  exact ⟨x, hx, hav⟩

theorem rowCond_of_find?_pos (c : Catalog) (iid : Nat)
    (hnd : (c.ingredients.map (fun i => i.id)).Nodup)
    (hinv : invOk c) (x : Ingredient)
    (hx : c.ingredients.find? (fun i => i.id == iid) = some x)
    (hxa : x.availability ≠ some 0) :
    ∀ y ∈ c.ingredients, y.id = iid → y.availability = none ∨
      ∃ a : Int, y.availability = some a ∧ 1 ≤ a := by
  intro y hy hyid
  have hxmem : x ∈ c.ingredients := List.mem_of_find?_eq_some hx
  have hxid : x.id = iid := by simpa using List.find?_some hx
  have hyx : y = x :=
    List.inj_on_of_nodup_map hnd hy hxmem (by rw [hyid, hxid])
  subst hyx
  cases hav : y.availability with
  | none => exact Or.inl rfl
  | some a =>
    right
    refine ⟨a, rfl, ?_⟩
    have h0 := hinv y hy
    rw [hav] at h0
    simp only [Option.getD_some] at h0
    have : a ≠ 0 := fun hh => hxa (by rw [hav, hh])
    omega

/-- Unfolding of `deleteOrder` into its four effects. -/
theorem deleteOrder_eq (db : DB) (userId orderId : Nat) :
    deleteOrder db userId orderId =
      ({ db with
          catalog := ((db.orderIngredients.filter (fun p => p.1 == orderId)).map
            (fun p => p.2)).foldl incrementAvail db.catalog,
          orderIngredients := db.orderIngredients.filter (fun p => !(p.1 == orderId)),
          orders := db.orders.filter (fun r => !(r.id == orderId && r.userId == userId)) },
       .ok (db.orders.filter (fun r => r.id == orderId && r.userId == userId)).length) := rfl

/-- C8: for every well-formed database state, an order accepted and
committed by the route, immediately deleted by the same user with the
returned id, restores every touched tracked ingredient's availability to
its exact pre-creation value (the whole catalog is restored), removes all
of the order's association rows (the join table returns to its
pre-creation contents), removes the order row, and reports one affected
row. -/
theorem create_then_delete_round_trip (db : DB) (u : Nat) (o : OrderReq) (oid : Nat)
    (hwf : WellFormed db)
    (h : (postOrder db.catalog db.catalog db u o).2 = .created oid) :
    (deleteOrder (postOrder db.catalog db.catalog db u o).1 u oid).1.catalog = db.catalog ∧
    (deleteOrder (postOrder db.catalog db.catalog db u o).1 u oid).1.orderIngredients =
      db.orderIngredients ∧
    (deleteOrder (postOrder db.catalog db.catalog db u o).1 u oid).1.orders = db.orders ∧
    (deleteOrder (postOrder db.catalog db.catalog db u o).1 u oid).2 = .ok 1 := by
  obtain ⟨hinv, hndids, hoilt, hordlt⟩ := hwf
  obtain ⟨db1, hval, hfc, hco, hdb1⟩ := postOrder_created_spec db.catalog db.catalog db u o oid h
  rw [hdb1]
  obtain ⟨hoid, h2, h3, h4, h5⟩ := createOrder_ok_spec noFail db u o db1 oid hco
  have hnodup : o.ingredients.Nodup := createOrder_ok_nodup noFail db u o db1 oid hco
  subst hoid
  have hingRows : (db1.orderIngredients.filter (fun p => p.1 == db.nextOrderId)).map
      (fun p => p.2) = o.ingredients := by
    rw [h3, List.filter_append]
    have hpre : db.orderIngredients.filter (fun p => p.1 == db.nextOrderId) = [] :=
      List.filter_eq_nil_iff.mpr (fun p hp => by
        have := hoilt p hp
        simp only [beq_iff_eq]
        omega)
    have hnew : (o.ingredients.map (fun i => (db.nextOrderId, i))).filter
        (fun p => p.1 == db.nextOrderId) = o.ingredients.map (fun i => (db.nextOrderId, i)) :=
      List.filter_eq_self.mpr (fun p hp => by
        obtain ⟨i, hi, rfl⟩ := List.mem_map.mp hp
        simp)
    rw [hpre, hnew, List.nil_append, List.map_map]
    simp
  have hcond : ∀ iid ∈ o.ingredients, ∀ x ∈ db.catalog.ingredients, x.id = iid →
      x.availability = none ∨ ∃ a : Int, x.availability = some a ∧ 1 ≤ a := by
    intro iid hiid
    obtain ⟨x, hx, hxa⟩ := finalCheck_none_spec db.catalog o.ingredients hfc iid hiid
    exact rowCond_of_find?_pos db.catalog iid hndids hinv x hx hxa
  have hcatres : List.foldl incrementAvail db1.catalog o.ingredients = db.catalog := by
    rw [h4]
    exact foldl_incrementAvail_decrementAvail_cancel o.ingredients db.catalog hnodup hcond
  have hoires : db1.orderIngredients.filter (fun p => !(p.1 == db.nextOrderId)) =
      db.orderIngredients := by
    rw [h3, List.filter_append]
    have hpre : db.orderIngredients.filter (fun p => !(p.1 == db.nextOrderId)) =
        db.orderIngredients :=
      List.filter_eq_self.mpr (fun p hp => by
        have := hoilt p hp
        simp only [Bool.not_eq_eq_eq_not, Bool.not_true, beq_eq_false_iff_ne]
        omega)
    have hnew : (o.ingredients.map (fun i => (db.nextOrderId, i))).filter
        (fun p => !(p.1 == db.nextOrderId)) = [] :=
      List.filter_eq_nil_iff.mpr (fun p hp => by
        obtain ⟨i, hi, rfl⟩ := List.mem_map.mp hp
        simp)
    rw [hpre, hnew, List.append_nil]
  have hordres : db1.orders.filter
      (fun r => !(r.id == db.nextOrderId && r.userId == u)) = db.orders := by
    rw [h2, List.filter_append]
    have hpre : db.orders.filter (fun r => !(r.id == db.nextOrderId && r.userId == u)) =
        db.orders :=
      List.filter_eq_self.mpr (fun r hr => by
        have := hordlt r hr
        have hne : (r.id == db.nextOrderId) = false := by
          simp only [beq_eq_false_iff_ne]
          omega
        simp [hne])
    have hnew : ([(⟨db.nextOrderId, u, o.dishId, o.sizeId, o.total⟩ : OrderRow)]).filter
        (fun r => !(r.id == db.nextOrderId && r.userId == u)) = [] := by
      simp
    rw [hpre, hnew, List.append_nil]
  have hdel : db1.orders.filter (fun r => r.id == db.nextOrderId && r.userId == u) =
      [⟨db.nextOrderId, u, o.dishId, o.sizeId, o.total⟩] := by
    rw [h2, List.filter_append]
    have hpre : db.orders.filter (fun r => r.id == db.nextOrderId && r.userId == u) = [] :=
      List.filter_eq_nil_iff.mpr (fun r hr => by
        have := hordlt r hr
        have hne : (r.id == db.nextOrderId) = false := by
          simp only [beq_eq_false_iff_ne]
          omega
        simp [hne])
    have hnew : ([(⟨db.nextOrderId, u, o.dishId, o.sizeId, o.total⟩ : OrderRow)]).filter
        (fun r => r.id == db.nextOrderId && r.userId == u) =
        [⟨db.nextOrderId, u, o.dishId, o.sizeId, o.total⟩] := by
      simp
    rw [hpre, hnew, List.nil_append]
  rw [deleteOrder_eq]
  refine ⟨?_, ?_, ?_, ?_⟩
  · show ((db1.orderIngredients.filter (fun p => p.1 == db.nextOrderId)).map
      (fun p => p.2)).foldl incrementAvail db1.catalog = db.catalog
    rw [hingRows]
    exact hcatres
  · exact hoires
  · exact hordres
  · show Except.ok (db1.orders.filter
        (fun r => r.id == db.nextOrderId && r.userId == u)).length = .ok 1
    rw [hdel]
    rfl

/-- Witness for C8: creating the order `[1, 2, 5]` for user 1 on the
seeded database and deleting it immediately restores the catalog, the
join table and the orders table. -/
theorem create_then_delete_round_trip_witness :
    (WellFormed seedDB ∧
     (postOrder seedDB.catalog seedDB.catalog seedDB 1 ⟨1, 2, [1, 2, 5], 6⟩).2 = .created 5) ∧
    ((deleteOrder (postOrder seedDB.catalog seedDB.catalog seedDB 1
        ⟨1, 2, [1, 2, 5], 6⟩).1 1 5).1.catalog = seedDB.catalog ∧
     (deleteOrder (postOrder seedDB.catalog seedDB.catalog seedDB 1
        ⟨1, 2, [1, 2, 5], 6⟩).1 1 5).1.orderIngredients = seedDB.orderIngredients ∧
     (deleteOrder (postOrder seedDB.catalog seedDB.catalog seedDB 1
        ⟨1, 2, [1, 2, 5], 6⟩).1 1 5).1.orders = seedDB.orders ∧
     (deleteOrder (postOrder seedDB.catalog seedDB.catalog seedDB 1
        ⟨1, 2, [1, 2, 5], 6⟩).1 1 5).2 = .ok 1) :=
  ⟨⟨by decide, by decide⟩,
   create_then_delete_round_trip seedDB 1 ⟨1, 2, [1, 2, 5], 6⟩ 5 (by decide) (by decide)⟩

/-- Witness for C7 on the seeded database. -/
theorem engine_preserves_inventory_invariant_witness :
    invOk seedDB.catalog ∧
    ((invOk ((createOrder noFail seedDB 1 ⟨1, 2, [1, 2, 5], 6⟩).1).catalog ∧
      keepsUnlimited seedDB.catalog
        ((createOrder noFail seedDB 1 ⟨1, 2, [1, 2, 5], 6⟩).1).catalog) ∧
     (invOk ((deleteOrder seedDB 1 3).1).catalog ∧
      keepsUnlimited seedDB.catalog ((deleteOrder seedDB 1 3).1).catalog)) :=
  ⟨by decide,
   engine_preserves_inventory_invariant noFail seedDB 1 ⟨1, 2, [1, 2, 5], 6⟩ 1 3 (by decide)⟩

/-- Witness for C4 (amended): committing an order for the out-of-stock
ingredient leaves its availability at exactly 0. -/
theorem createOrder_no_decrement_below_zero_witness :
    (createOrder noFail dbOutOfStock 1 ⟨1, 1, [1], 6⟩ = (dbOutOfStockAfter, .ok 1) ∧
     availOf dbOutOfStock.catalog 1 = some (some 0)) ∧
    availOf dbOutOfStockAfter.catalog 1 = some (some 0) :=
  ⟨⟨by decide, by decide⟩,
   createOrder_no_decrement_below_zero noFail dbOutOfStock 1 ⟨1, 1, [1], 6⟩
     dbOutOfStockAfter 1 1 (by decide) (by decide)⟩

end Restaurant
